import Mathlib

/-!
Verification of the meter / profiler subsystem of the profiler-qgis-plugin
repository, shallowly embedded in Lean.

The embedding follows the Python sources:
  * src/qgis_profiler/meters/meter.py                (Meter base class)
  * src/qgis_profiler/meters/map_rendering.py        (MapRenderingMeter)
  * src/qgis_profiler/meters/thread_health_checker.py (MainThreadHealthChecker)
  * src/qgis_profiler/meters/recovery_measurer.py    (RecoveryMeasurer)
  * src/qgis_profiler/profiler.py                    (ProfilerWrapper, ProfilerResult)

Conventions of the embedding:
  * Durations and thresholds are rationals (ℚ); timer readings are integers
    (QElapsedTimer.elapsed returns whole milliseconds).
  * Qt signal emissions are returned as explicit lists of `MeterAnomaly`.
  * Qt signal connections are counted (connect adds one, disconnect of a
    slot removes all matching connections and raises TypeError - suppressed
    by the callers - when none exists).
  * The host environment (event-loop timings, canvas refresh notifications)
    is passed in as explicit oracle values or functions.
  * Python while-loops that read the environment are given a fuel parameter;
    `none` means the fuel ran out, i.e. the loop did not terminate within
    the given number of iterations.
-/

/-- Context of a meter (class MeterContext, meter.py). -/
structure MeterContext where
  name : String
  group : String
deriving DecidableEq, Repr

/-- MeterContext.with_meter_suffix (meter.py): suffixes the name. -/
def MeterContext.with_meter_suffix (c : MeterContext) (suffix : String) : MeterContext :=
  ⟨c.name ++ " (" ++ suffix ++ ")", c.group⟩

/-- Anomaly detected by a meter (class MeterAnomaly, meter.py). -/
structure MeterAnomaly where
  context : MeterContext
  duration_seconds : ℚ
deriving DecidableEq, Repr

/-- Base-class state of a Meter (Meter.__init__, meter.py).
`short_name` is the `_short_name` class variable; the default context is
`MeterContext(self.__class__.__name__, ProfilerSettings.meters_group.get())`. -/
structure MeterState where
  short_name : String
  default_context : MeterContext
  context_stack : List MeterContext
  enabled : Bool
  connected_to_profiler : Bool
  supports_continuous_measuring : Bool
  is_measuring : Bool
deriving DecidableEq, Repr

/-- Meter.__init__ : fresh base state (stack empty, enabled, not connected,
not measuring). -/
def MeterState.init (short_name class_name meters_group : String)
    (supports_continuous_measurement : Bool) : MeterState :=
  { short_name := short_name
    default_context := ⟨class_name, meters_group⟩
    context_stack := []
    enabled := true
    connected_to_profiler := false
    supports_continuous_measuring := supports_continuous_measurement
    is_measuring := false }

/-- Meter.current_context (meter.py): top of the context stack if non-empty,
else the default context; if `_short_name` is non-empty the meter suffix is
applied.  The Python stack appends and pops at the end of the list, so the
top of the stack is the last element. -/
def Meter.current_context (m : MeterState) : MeterContext :=
  let context := match m.context_stack.getLast? with
    | some c => c
    | none => m.default_context
  if m.short_name = "" then context else context.with_meter_suffix m.short_name

/-- Meter.add_context (meter.py): push onto the context stack
(Python list.append: at the end). -/
def Meter.add_context (m : MeterState) (name group : String) : MeterState :=
  { m with context_stack := m.context_stack ++ [⟨name, group⟩] }

/-- Meter.pop_context (meter.py): remove and return the last context if the
stack is non-empty, otherwise return None and leave the state unchanged. -/
def Meter.pop_context (m : MeterState) : Option MeterContext × MeterState :=
  match m.context_stack.getLast? with
  | some c => (some c, { m with context_stack := m.context_stack.dropLast })
  | none => (none, m)

/-- Meter.connect_to_profiler (meter.py): connects anomaly_detected to
_profile_anomaly and records the fact. -/
def Meter.connect_to_profiler (m : MeterState) : MeterState :=
  { m with connected_to_profiler := true }

/-- Meter.context (meter.py): the contextmanager pushes the context, yields
`current_context` to the body and pops in a `finally` block, so the pop
happens also when the body raises.  The body receives the yielded context
and the meter state and returns the new state together with a flag telling
whether it raised. -/
def Meter.with_context (m : MeterState) (name group : String)
    (body : MeterContext → MeterState → MeterState × Bool) : MeterState × Bool :=
  let m1 := Meter.add_context m name group
  let (m2, raised) := body (Meter.current_context m1) m1
  ((Meter.pop_context m2).2, raised)

/-- Subclass hooks of the Meter base class: how to read and replace the base
state and the `_start_measuring` / `_stop_measuring` overrides. -/
structure MeterOps (σ : Type) where
  base : σ → MeterState
  setBase : σ → MeterState → σ
  startImpl : σ → σ × Bool
  stopImpl : σ → σ

/-- Meter.start_measuring (meter.py): if continuous measuring is supported,
set `_is_measuring` to True and run the subclass `_start_measuring`;
otherwise return False and change nothing.  Note there is no guard on
`_is_measuring`: a second call runs `_start_measuring` again. -/
def Meter.start_measuring {σ : Type} (ops : MeterOps σ) (s : σ) : σ × Bool :=
  if (ops.base s).supports_continuous_measuring then
    ops.startImpl (ops.setBase s { ops.base s with is_measuring := true })
  else (s, false)

/-- Meter.stop_measuring (meter.py): clear `_is_measuring` and run the
subclass `_stop_measuring`. -/
def Meter.stop_measuring {σ : Type} (ops : MeterOps σ) (s : σ) : σ :=
  ops.stopImpl (ops.setBase s { ops.base s with is_measuring := false })

/-- Meter.cleanup (meter.py): stop measuring, disconnect `anomaly_detected`
from `_profile_anomaly` (a TypeError when it was never connected is
suppressed) and clear `_connected_to_profiler`. -/
def Meter.cleanup {σ : Type} (ops : MeterOps σ) (s : σ) : σ :=
  let s1 := Meter.stop_measuring ops s
  ops.setBase s1 { ops.base s1 with connected_to_profiler := false }

/-- Meter.measure (meter.py): when enabled, run the subclass `_measure`,
emit `anomaly_detected` if it reports an anomaly and return the duration;
when disabled return None.  The subclass `_measure` may itself emit
anomalies (the rendering meter does, through its refresh handler), so it
returns the emitted list alongside `(duration, anomaly_detected)`.  A
`none` from the implementation means its internal loop never finished. -/
def Meter.measure {σ : Type} (baseOf : σ → MeterState)
    (measureImpl : σ → Option (σ × List MeterAnomaly × ℚ × Bool)) (s : σ) :
    Option (Option ℚ × σ × List MeterAnomaly) :=
  if (baseOf s).enabled then
    match measureImpl s with
    | none => none
    | some (s', emitted, duration, anomaly) =>
      if anomaly then
        some (some duration, s', emitted ++ [⟨Meter.current_context (baseOf s'), duration⟩])
      else
        some (some duration, s', emitted)
  else some (none, s, [])

/-- Python round(x, 3) rounds half to even.  `roundHalfToEven q` is the
integer nearest to `q`, ties to the even integer. -/
def roundHalfToEven (q : ℚ) : ℤ :=
  let f := ⌊q⌋
  if q - f < 1/2 then f
  else if 1/2 < q - f then f + 1
  else if f % 2 = 0 then f else f + 1

/-- Python round(x, 3). -/
def pyRound3 (q : ℚ) : ℚ := (roundHalfToEven (q * 1000) : ℚ) / 1000

/-- Rounding an integer number of milliseconds divided by 1000 to three
decimals is exact. -/
theorem pyRound3_int_div (n : ℤ) : pyRound3 ((n : ℚ) / 1000) = (n : ℚ) / 1000 := by
  have h : ((n : ℚ) / 1000) * 1000 = (n : ℚ) := by
    field_simp
  unfold pyRound3 roundHalfToEven
  rw [h, Int.floor_intCast]
  norm_num

/-- Stub meter base state used by concrete witnesses, mirroring StubMeter of
test/meters/test_meter.py (a meter whose `_short_name` is "stub"). -/
def stubMeter : MeterState := MeterState.init "stub" "StubMeter" "Meters" false

/-- Body for the context-manager witness: flips a flag unrelated to the
context stack and raises. -/
def stubBody : MeterContext → MeterState → MeterState × Bool :=
  fun _ s => ({ s with enabled := false }, true)

/-- C4: for every meter, every (name, group) pair and every wrapped body,
`Meter.context(name, group)` leaves the context stack exactly as it was
before entry; the pair pushed on entry is popped on exit even when the body
raises (the raised flag is propagated unchanged).  The body itself is
required to leave the stack as it found it. -/
theorem meter_with_context_balanced (m : MeterState) (name group : String)
    (body : MeterContext → MeterState → MeterState × Bool)
    (hbody : ((body (Meter.current_context (Meter.add_context m name group))
        (Meter.add_context m name group)).1).context_stack
      = (Meter.add_context m name group).context_stack) :
    ((Meter.with_context m name group body).1).context_stack = m.context_stack ∧
    (Meter.with_context m name group body).2
      = (body (Meter.current_context (Meter.add_context m name group))
          (Meter.add_context m name group)).2 := by
  cases hb : body (Meter.current_context (Meter.add_context m name group))
      (Meter.add_context m name group) with
  | mk m2 raised =>
    have hs : m2.context_stack = m.context_stack ++ [⟨name, group⟩] := by
      have h2 := hbody
      rw [hb] at h2
      simpa [Meter.add_context] using h2
    constructor
    · simp [Meter.with_context, hb, Meter.pop_context, hs]
    · simp [Meter.with_context, hb]

/-- Witness for the context-manager balance theorem: a concrete meter and a
body that raises; the stack is restored and the exception propagated. -/
theorem meter_with_context_balanced_witness :
    (((stubBody (Meter.current_context (Meter.add_context stubMeter "foo" "group1"))
        (Meter.add_context stubMeter "foo" "group1")).1).context_stack
      = (Meter.add_context stubMeter "foo" "group1").context_stack) ∧
    ((Meter.with_context stubMeter "foo" "group1" stubBody).1).context_stack
      = stubMeter.context_stack ∧
    (Meter.with_context stubMeter "foo" "group1" stubBody).2
      = (stubBody (Meter.current_context (Meter.add_context stubMeter "foo" "group1"))
          (Meter.add_context stubMeter "foo" "group1")).2 :=
  ⟨rfl, meter_with_context_balanced stubMeter "foo" "group1" stubBody rfl⟩

/-- C7 (amended): for every meter, `add_context` pushes a pair,
`pop_context` removes and returns the most recently pushed pair (None and
unchanged state on an empty stack), and `current_context` is the
top-of-stack pair when non-empty and the default context otherwise, with
the meter short-name suffix applied to the pair's name whenever
`_short_name` is non-empty. -/
theorem meter_context_stack_semantics (m : MeterState) (name group : String)
    (l : List MeterContext) (c : MeterContext) :
    Meter.pop_context (Meter.add_context m name group) = (some ⟨name, group⟩, m) ∧
    Meter.pop_context { m with context_stack := [] }
      = (none, { m with context_stack := [] }) ∧
    Meter.current_context { m with context_stack := l ++ [c] }
      = (if m.short_name = "" then c else c.with_meter_suffix m.short_name) ∧
    Meter.current_context { m with context_stack := [] }
      = (if m.short_name = "" then m.default_context
        else m.default_context.with_meter_suffix m.short_name) := by
  refine ⟨?_, ?_, ?_, ?_⟩
  · simp [Meter.pop_context, Meter.add_context]
  · simp [Meter.pop_context]
  · simp [Meter.current_context]
  · simp [Meter.current_context]

/-- Stub meter with one pushed context, as in test_meter_context_stack. -/
def stubMeterWithContext : MeterState :=
  Meter.add_context stubMeter "foo" "group1"

/-- Counterexample to C7 as stated: for a meter defining a non-empty
`_short_name` (here "stub", as the StubMeter of the test suite),
`current_context` is not exactly the top-of-stack pair: the name is
suffixed with " (stub)". -/
theorem meter_current_context_not_top_cex :
    stubMeterWithContext.context_stack.getLast? = some ⟨"foo", "group1"⟩ ∧
    Meter.current_context stubMeterWithContext = ⟨"foo (stub)", "group1"⟩ ∧
    Meter.current_context stubMeterWithContext ≠ ⟨"foo", "group1"⟩ := by
  refine ⟨rfl, rfl, ?_⟩
  decide

/-- State of a MapRenderingMeter (map_rendering.py).  The Qt connections
made by `_start_measuring` are counted: `conn_render_starting` counts live
renderStarting → `_rendering_started` connections and `conn_render_finished`
counts live mapCanvasRefreshed → `_rendering_finished` connections.
`render_event` is the environment oracle for a one-shot `_measure`: the
elapsed-timer reading (ms) delivered by the canvas-refresh handler during
the processEvents drain loop, or `none` when no refresh arrives within the
10 s timeout. -/
structure MapRenderingMeter where
  base : MeterState
  threshold_ms : ℚ
  last_rendering_time_ms : ℤ
  conn_render_starting : ℕ
  conn_render_finished : ℕ
  render_event : Option ℤ
deriving DecidableEq, Repr

/-- MapRenderingMeter.__init__ (map_rendering.py): continuous measurement
supported, `_short_name` is "rendering", threshold stored in ms. -/
def MapRenderingMeter.init (threshold_s : ℚ) (meters_group : String)
    (render_event : Option ℤ) : MapRenderingMeter :=
  { base := MeterState.init "rendering" "MapRenderingMeter" meters_group true
    threshold_ms := threshold_s * 1000
    last_rendering_time_ms := 0
    conn_render_starting := 0
    conn_render_finished := 0
    render_event := render_event }

/-- MapRenderingMeter._start_measuring: connect `_rendering_started` to
renderStarting and `_rendering_finished` to mapCanvasRefreshed. -/
def MapRenderingMeter.startImpl (m : MapRenderingMeter) : MapRenderingMeter × Bool :=
  ({ m with
      conn_render_starting := m.conn_render_starting + 1
      conn_render_finished := m.conn_render_finished + 1 }, true)

/-- MapRenderingMeter._stop_measuring, exactly as written in the source:
the renderStarting → `_rendering_started` connection is disconnected twice
(each `disconnect` removes all matching connections; the TypeError raised
when none is left is suppressed); the mapCanvasRefreshed →
`_rendering_finished` connection is never disconnected. -/
def MapRenderingMeter.stopImpl (m : MapRenderingMeter) : MapRenderingMeter :=
  let m1 := { m with conn_render_starting := 0 }
  { m1 with conn_render_starting := 0 }

/-- MeterOps instance wiring the MapRenderingMeter overrides into the base
class. -/
def mapOps : MeterOps MapRenderingMeter where
  base := fun m => m.base
  setBase := fun m b => { m with base := b }
  startImpl := MapRenderingMeter.startImpl
  stopImpl := MapRenderingMeter.stopImpl

/-- MapRenderingMeter._rendering_finished: read the elapsed timer; when the
reading exceeds the threshold emit an anomaly with the rounded duration in
seconds; store the reading in `_last_rendering_time_ms`.  There is no check
of `enabled`. -/
def MapRenderingMeter.rendering_finished (m : MapRenderingMeter) (elapsed_ms : ℤ) :
    MapRenderingMeter × List MeterAnomaly :=
  let emitted : List MeterAnomaly :=
    if m.threshold_ms < (elapsed_ms : ℚ) then
      [⟨Meter.current_context m.base, pyRound3 ((elapsed_ms : ℚ) / 1000)⟩]
    else []
  ({ m with last_rendering_time_ms := elapsed_ms }, emitted)

/-- MapRenderingMeter._measure: if already measuring, report the last
rendering time against the threshold; otherwise reset the last time, start
measuring, redraw all layers and drain events until the refresh handler has
run or 10 s pass.  The final anomaly flag compares the duration in seconds
against `self._threshold_ms * 1000`, exactly as in the source. -/
def MapRenderingMeter.measureImpl (m : MapRenderingMeter) :
    MapRenderingMeter × List MeterAnomaly × ℚ × Bool :=
  if m.base.is_measuring then
    (m, [], (m.last_rendering_time_ms : ℚ) / 1000,
      decide (m.threshold_ms < (m.last_rendering_time_ms : ℚ)))
  else
    let m1 : MapRenderingMeter := { m with last_rendering_time_ms := 0 }
    let m2 := (Meter.start_measuring mapOps m1).1
    let handled :=
      match m2.render_event with
      | some elapsed_ms => MapRenderingMeter.rendering_finished m2 elapsed_ms
      | none => (m2, [])
    let m3 := handled.1
    let rendering_time : ℚ :=
      if m3.last_rendering_time_ms = 0 then 10 else (m3.last_rendering_time_ms : ℚ) / 1000
    (m3, handled.2, rendering_time, decide (m.threshold_ms * 1000 < rendering_time))

/-- Total `_measure` wrapped for `Meter.measure` (the drain loop always
terminates: it is bounded by the 10 s timeout). -/
def MapRenderingMeter.measureImplF (m : MapRenderingMeter) :
    Option (MapRenderingMeter × List MeterAnomaly × ℚ × Bool) :=
  some (MapRenderingMeter.measureImpl m)

/-- State of a MainThreadHealthChecker (thread_health_checker.py).
ThreadPoller objects and QThreads are identified by creation index so that
object identity is observable: `pollers_created` counts ThreadPoller
constructions, `threads_running` counts started and not yet quit QThreads,
and `poll_connections` lists the poller ids whose `poll` signal is
connected to `_on_poll_event`. -/
structure MainThreadHealthChecker where
  base : MeterState
  poll_interval_ms : ℚ
  threshold_ms : ℚ
  poller : Option ℕ
  polling_thread : Option ℕ
  pollers_created : ℕ
  threads_running : ℕ
  poll_connections : List ℕ
  last_delay_ms : ℤ
deriving DecidableEq, Repr

/-- MainThreadHealthChecker.__init__: continuous measurement supported,
`_short_name` is "main_thread". -/
def MainThreadHealthChecker.init (poll_interval_s threshold_s : ℚ)
    (meters_group : String) : MainThreadHealthChecker :=
  { base := MeterState.init "main_thread" "MainThreadHealthChecker" meters_group true
    poll_interval_ms := poll_interval_s * 1000
    threshold_ms := threshold_s * 1000
    poller := none
    polling_thread := none
    pollers_created := 0
    threads_running := 0
    poll_connections := []
    last_delay_ms := 0 }

/-- MainThreadHealthChecker._start_measuring: construct a new ThreadPoller,
connect its poll signal to `_on_poll_event`, construct a new QThread, move
the poller onto it and start it.  A previously stored poller or thread is
simply overwritten. -/
def MainThreadHealthChecker.startImpl (m : MainThreadHealthChecker) :
    MainThreadHealthChecker × Bool :=
  let id := m.pollers_created
  ({ m with
      poller := some id
      polling_thread := some id
      pollers_created := m.pollers_created + 1
      threads_running := m.threads_running + 1
      poll_connections := id :: m.poll_connections }, true)

/-- MainThreadHealthChecker._stop_measuring: disconnect `_on_poll_event`
from the current poller (if any), quit and wait for the current thread (if
any), and clear both references. -/
def MainThreadHealthChecker.stopImpl (m : MainThreadHealthChecker) :
    MainThreadHealthChecker :=
  let m1 :=
    match m.poller with
    | some id => { m with poll_connections := m.poll_connections.erase id }
    | none => m
  let m2 :=
    match m1.polling_thread with
    | some _ => { m1 with threads_running := m1.threads_running - 1 }
    | none => m1
  { m2 with poller := none, polling_thread := none }

/-- MeterOps instance for the MainThreadHealthChecker. -/
def hcOps : MeterOps MainThreadHealthChecker where
  base := fun m => m.base
  setBase := fun m b => { m with base := b }
  startImpl := MainThreadHealthChecker.startImpl
  stopImpl := MainThreadHealthChecker.stopImpl

/-- MainThreadHealthChecker._on_poll_event: when a poller exists, read the
elapsed time since its last ping, emit an anomaly when it exceeds the
threshold, and store it as the last delay.  There is no check of
`enabled`. -/
def MainThreadHealthChecker.on_poll_event (m : MainThreadHealthChecker)
    (elapsed_ms : ℤ) : MainThreadHealthChecker × List MeterAnomaly :=
  match m.poller with
  | none => (m, [])
  | some _ =>
    let emitted : List MeterAnomaly :=
      if m.threshold_ms < (elapsed_ms : ℚ) then
        [⟨Meter.current_context m.base, pyRound3 ((elapsed_ms : ℚ) / 1000)⟩]
      else []
    ({ m with last_delay_ms := elapsed_ms }, emitted)

/-- Guard used by the Meter.monitor decorator (meter.py): continuous
measuring is started only when the meter supports it and `is_measuring` is
still False. -/
def MainThreadHealthChecker.monitor_start (m : MainThreadHealthChecker) :
    MainThreadHealthChecker :=
  if m.base.supports_continuous_measuring ∧ ¬m.base.is_measuring then
    (Meter.start_measuring hcOps m).1
  else m

/-- C1 (amended): for every meter, if `enabled` is False then
`Meter.measure()` returns None, leaves the state unchanged and emits no
anomaly from the measure path; the inner `_measure` is not invoked (the
result is the same for every implementation, including one that would
never terminate). -/
theorem meter_measure_disabled {σ : Type} (baseOf : σ → MeterState)
    (measureImpl : σ → Option (σ × List MeterAnomaly × ℚ × Bool)) (s : σ)
    (h : (baseOf s).enabled = false) :
    Meter.measure baseOf measureImpl s = some (none, s, []) := by
  simp [Meter.measure, h]

/-- Disabled health checker on which continuous measurement was started:
`enabled` is set to False (the setter has no guard) and `start_measuring`
is called (it checks only `supports_continuous_measuring`). -/
def disabledHealthChecker : MainThreadHealthChecker :=
  let m0 := MainThreadHealthChecker.init (1/100) (9/100) "Meters"
  let m1 := { m0 with base := { m0.base with enabled := false } }
  (Meter.start_measuring hcOps m1).1

/-- Witness for the disabled-measure theorem at a concrete disabled meter
and an arbitrary `_measure` implementation. -/
theorem meter_measure_disabled_witness :
    disabledHealthChecker.base.enabled = false ∧
    Meter.measure (fun m => m.base) (fun _ => none) disabledHealthChecker
      = some (none, disabledHealthChecker, []) :=
  ⟨rfl, meter_measure_disabled (fun m => m.base) (fun _ => none) disabledHealthChecker rfl⟩

/-- Counterexample to C1 as stated: while the meter is disabled, the
thread health checker's poll handler still emits `anomaly_detected`
(it has no `enabled` check), here with a poll delay of 1000 ms against a
90 ms threshold. -/
theorem meter_disabled_anomaly_cex :
    disabledHealthChecker.base.enabled = false ∧
    (MainThreadHealthChecker.on_poll_event disabledHealthChecker 1000).2 ≠ [] := by
  constructor
  · rfl
  · have hpoller : disabledHealthChecker.poller = some 0 := rfl
    have hlt : disabledHealthChecker.threshold_ms < (1000 : ℚ) := by
      have h : disabledHealthChecker.threshold_ms = 9/100 * 1000 := rfl
      rw [h]; norm_num
    simp [MainThreadHealthChecker.on_poll_event, hpoller, hlt]

/-- Fresh health checker used by the idempotence counterexample (10 ms poll
interval, 90 ms threshold, as in the test fixture). -/
def healthChecker0 : MainThreadHealthChecker :=
  MainThreadHealthChecker.init (1/100) (9/100) "Meters"

/-- Counterexample to C2 as stated: calling `start_measuring()` twice is
not a no-op.  The second call runs `_start_measuring` again, constructing
a second ThreadPoller (and a second worker thread), so the state after two
calls differs from the state after one. -/
theorem start_measuring_not_idempotent_cex :
    (Meter.start_measuring hcOps (Meter.start_measuring hcOps healthChecker0).1).1
      ≠ (Meter.start_measuring hcOps healthChecker0).1 ∧
    ((Meter.start_measuring hcOps healthChecker0).1).pollers_created = 1 ∧
    ((Meter.start_measuring hcOps
        (Meter.start_measuring hcOps healthChecker0).1).1).pollers_created = 2 := by
  refine ⟨?_, rfl, rfl⟩
  intro h
  have h2 := congrArg MainThreadHealthChecker.pollers_created h
  have h3 : (2 : ℕ) = 1 := h2
  exact absurd h3 (by decide)

/-- C2 (amended): idempotence holds for the guarded start performed by the
`Meter.monitor` decorator, which starts continuous measuring only when the
meter supports it and `is_measuring` is still False; under that guard a
second start is a no-op. -/
theorem monitor_start_idempotent (m : MainThreadHealthChecker) :
    MainThreadHealthChecker.monitor_start (MainThreadHealthChecker.monitor_start m)
      = MainThreadHealthChecker.monitor_start m := by
  unfold MainThreadHealthChecker.monitor_start
  by_cases h1 : m.base.supports_continuous_measuring ∧ ¬m.base.is_measuring
  · rw [if_pos h1]
    have hmeas : ((Meter.start_measuring hcOps m).1).base.is_measuring = true := by
      simp [Meter.start_measuring, hcOps, h1.1, MainThreadHealthChecker.startImpl]
    rw [if_neg]
    simp [hmeas]
  · rw [if_neg h1, if_neg h1]

/-- Rendering meter after connecting to the profiler, starting continuous
measurement and calling `cleanup()` (threshold 0.05 s as in the test
fixture). -/
def renderingMeterAfterCleanup : MapRenderingMeter :=
  let m0 := MapRenderingMeter.init (1/20) "Meters" none
  let m1 := { m0 with base := Meter.connect_to_profiler m0.base }
  let m2 := (Meter.start_measuring mapOps m1).1
  Meter.cleanup mapOps m2

/-- C3: after `cleanup()`, `is_measuring` is False and the anomaly
subscriber is disconnected, but for the MapRenderingMeter the
mapCanvasRefreshed → `_rendering_finished` subscription established by
`_start_measuring` is still connected: `_stop_measuring` disconnects the
renderStarting subscription twice and never the render-finished one.  This
theorem evaluates the code at the failing input. -/
theorem map_rendering_cleanup_leaves_refresh_connected :
    renderingMeterAfterCleanup.base.is_measuring = false ∧
    renderingMeterAfterCleanup.base.connected_to_profiler = false ∧
    renderingMeterAfterCleanup.conn_render_starting = 0 ∧
    renderingMeterAfterCleanup.conn_render_finished = 1 :=
  ⟨rfl, rfl, rfl, rfl⟩

/-- C5: a one-shot `measure()` on an enabled MapRenderingMeter that is not
continuously measuring, during which the canvas reports a rendering of
`e` ms (e ≥ 1), returns the observed rendering duration `e / 1000` seconds
and reports an anomaly (at least one `anomaly_detected` emission) precisely
when that duration exceeds `threshold_s` seconds.  The emission comes from
the `_rendering_finished` handler invoked inside the drain loop; the final
`(duration, anomaly)` flag of `_measure` compares against
`threshold_ms * 1000` and only ever adds a duplicate emission. -/
theorem map_rendering_one_shot_measure (m : MapRenderingMeter) (threshold_s : ℚ) (e : ℤ)
    (henabled : m.base.enabled = true)
    (hnotmeas : m.base.is_measuring = false)
    (hsupports : m.base.supports_continuous_measuring = true)
    (hthr : m.threshold_ms = threshold_s * 1000)
    (hev : m.render_event = some e)
    (hpos : 1 ≤ e) :
    ∃ m' a, Meter.measure (fun x => x.base) MapRenderingMeter.measureImplF m
        = some (some ((e : ℚ) / 1000), m', a) ∧
      (a ≠ [] ↔ threshold_s < (e : ℚ) / 1000) := by
  have hene : e ≠ 0 := by omega
  have he1 : (1 : ℚ) ≤ (e : ℚ) := by exact_mod_cast hpos
  have hiff : (threshold_s < (e : ℚ) / 1000) ↔ (m.threshold_ms < (e : ℚ)) := by
    rw [hthr, ← lt_div_iff₀ (by norm_num : (0 : ℚ) < 1000)]
  by_cases hflag : m.threshold_ms * 1000 < (e : ℚ) / 1000
  · have hrhs : threshold_s < (e : ℚ) / 1000 := by
      rw [hthr] at hflag
      by_contra hnot
      push_neg at hnot
      have h0 : (0 : ℚ) < (e : ℚ) / 1000 := by linarith
      linarith
    simp only [Meter.measure, MapRenderingMeter.measureImplF,
      MapRenderingMeter.measureImpl, henabled, hnotmeas, hev,
      Meter.start_measuring, mapOps, hsupports, MapRenderingMeter.startImpl,
      MapRenderingMeter.rendering_finished, hene, if_true, if_false,
      Bool.false_eq_true, decide_eq_true_eq, hflag]
    refine ⟨_, _, rfl, ?_⟩
    simp [hrhs]
  · simp only [Meter.measure, MapRenderingMeter.measureImplF,
      MapRenderingMeter.measureImpl, henabled, hnotmeas, hev,
      Meter.start_measuring, mapOps, hsupports, MapRenderingMeter.startImpl,
      MapRenderingMeter.rendering_finished, hene, if_true, if_false,
      Bool.false_eq_true, decide_eq_true_eq, hflag]
    refine ⟨_, _, rfl, ?_⟩
    by_cases h2 : m.threshold_ms < (e : ℚ)
    · simp [h2, hiff]
    · simp [h2, hiff]

/-- Rendering meter for the one-shot measure witness: threshold 0.05 s, a
rendering observed at 100 ms. -/
def oneShotRenderingMeter : MapRenderingMeter :=
  MapRenderingMeter.init (1/20) "Meters" (some 100)

/-- Witness for the one-shot rendering measure theorem: with threshold
0.05 s and an observed rendering of 100 ms the duration 0.1 s is returned
and an anomaly is reported. -/
theorem map_rendering_one_shot_measure_witness :
    oneShotRenderingMeter.base.enabled = true ∧
    oneShotRenderingMeter.base.is_measuring = false ∧
    oneShotRenderingMeter.base.supports_continuous_measuring = true ∧
    oneShotRenderingMeter.threshold_ms = (1/20 : ℚ) * 1000 ∧
    oneShotRenderingMeter.render_event = some 100 ∧
    (1 : ℤ) ≤ 100 ∧
    (∃ m' a, Meter.measure (fun x => x.base) MapRenderingMeter.measureImplF
        oneShotRenderingMeter = some (some (((100 : ℤ) : ℚ) / 1000), m', a) ∧
      (a ≠ [] ↔ (1/20 : ℚ) < ((100 : ℤ) : ℚ) / 1000)) :=
  ⟨rfl, rfl, rfl, rfl, rfl, by decide,
    map_rendering_one_shot_measure oneShotRenderingMeter (1/20) 100
      rfl rfl rfl rfl rfl (by decide)⟩

/-- State of a RecoveryMeasurer (recovery_measurer.py): no continuous
measurement, no `_short_name`; thresholds stored in whole milliseconds
(`threshold_s` and `timeout_s` are ints in the constructor). -/
structure RecoveryMeasurer where
  base : MeterState
  process_event_count : ℕ
  threshold_ms : ℤ
  timeout_ms : ℤ
deriving DecidableEq, Repr

/-- RecoveryMeasurer.__init__ . -/
def RecoveryMeasurer.init (process_event_count : ℕ) (threshold_s timeout_s : ℤ)
    (meters_group : String) : RecoveryMeasurer :=
  { base := MeterState.init "" "RecoveryMeasurer" meters_group false
    process_event_count := process_event_count
    threshold_ms := threshold_s * 1000
    timeout_ms := timeout_s * 1000 }

/-- RecoveryMeasurer._wait_for_recovery: repeatedly time one bounded batch
of event processing (`_time_to_process_main_thread_events`, the `batch`
oracle, batch i being the i-th call); while a batch takes longer than the
threshold set the over-threshold flag, break once the elapsed timer
(`elapsedAt` oracle, read after batch i) exceeds the timeout, otherwise
process events and re-try.  Returns the flag and the number of batches
examined before exiting (the exit index); `none` when the fuel runs out. -/
def RecoveryMeasurer.wait_for_recovery (batch elapsedAt : ℕ → ℤ) (thr tmo : ℤ) :
    ℕ → ℕ → Bool → Option (Bool × ℕ)
  | 0, _, _ => none
  | fuel + 1, i, acc =>
    if thr < batch i then
      if tmo < elapsedAt i then some (true, i + 1)
      else RecoveryMeasurer.wait_for_recovery batch elapsedAt thr tmo fuel (i + 1) true
    else some (acc, i)

/-- RecoveryMeasurer._measure: start the elapsed timer, wait for recovery,
and return the total elapsed time (the `finalElapsed` oracle, in ms)
rounded to three decimals, together with the over-threshold flag. -/
def RecoveryMeasurer.measureImpl (batch elapsedAt : ℕ → ℤ) (finalElapsed : ℤ)
    (fuel : ℕ) (m : RecoveryMeasurer) :
    Option (RecoveryMeasurer × List MeterAnomaly × ℚ × Bool) :=
  match RecoveryMeasurer.wait_for_recovery batch elapsedAt m.threshold_ms m.timeout_ms
      fuel 0 false with
  | none => none
  | some (over, _) => some (m, [], pyRound3 ((finalElapsed : ℚ) / 1000), over)

/-- Flag law of the wait loop: the over-threshold flag of a completed run
is the accumulator or-ed with whether the batch examined first exceeded
the threshold. -/
theorem wait_for_recovery_flag (batch elapsedAt : ℕ → ℤ) (thr tmo : ℤ) :
    ∀ (fuel i : ℕ) (acc over : Bool) (j : ℕ),
      RecoveryMeasurer.wait_for_recovery batch elapsedAt thr tmo fuel i acc
          = some (over, j) →
      over = (acc || decide (thr < batch i)) := by
  intro fuel
  induction fuel with
  | zero => intro i acc over j h; simp [RecoveryMeasurer.wait_for_recovery] at h
  | succ fuel ih =>
    intro i acc over j h
    by_cases h1 : thr < batch i
    · by_cases h2 : tmo < elapsedAt i
      · simp [RecoveryMeasurer.wait_for_recovery, h1, h2] at h
        simp [h1, h.1]
      · simp only [RecoveryMeasurer.wait_for_recovery, if_pos h1, if_neg h2] at h
        have := ih (i + 1) true over j h
        simp [h1, this]
    · simp [RecoveryMeasurer.wait_for_recovery, h1] at h
      simp [h1, h.1]

/-- Structure law of the wait loop: a completed run exits at the first
batch that is within the threshold, or breaks right after a batch at which
the elapsed timer exceeded the timeout; every batch examined before the
exit index exceeded the threshold. -/
theorem wait_for_recovery_exit (batch elapsedAt : ℕ → ℤ) (thr tmo : ℤ) :
    ∀ (fuel i : ℕ) (acc over : Bool) (j : ℕ),
      RecoveryMeasurer.wait_for_recovery batch elapsedAt thr tmo fuel i acc
          = some (over, j) →
      i ≤ j ∧ (∀ k, i ≤ k → k < j → thr < batch k) ∧
        (¬thr < batch j ∨ (i < j ∧ tmo < elapsedAt (j - 1))) := by
  intro fuel
  induction fuel with
  | zero => intro i acc over j h; simp [RecoveryMeasurer.wait_for_recovery] at h
  | succ fuel ih =>
    intro i acc over j h
    by_cases h1 : thr < batch i
    · by_cases h2 : tmo < elapsedAt i
      · simp [RecoveryMeasurer.wait_for_recovery, h1, h2] at h
        refine ⟨by omega, ?_, Or.inr ⟨by omega, ?_⟩⟩
        · intro k hk1 hk2
          have : k = i := by omega
          rwa [this]
        · have : j - 1 = i := by omega
          rwa [this]
      · simp only [RecoveryMeasurer.wait_for_recovery, if_pos h1, if_neg h2] at h
        obtain ⟨hij, hall, hexit⟩ := ih (i + 1) true over j h
        refine ⟨by omega, ?_, ?_⟩
        · intro k hk1 hk2
          rcases Nat.eq_or_lt_of_le hk1 with hk | hk
          · rwa [← hk]
          · exact hall k hk hk2
        · rcases hexit with hx | hx
          · exact Or.inl hx
          · exact Or.inr ⟨by omega, hx.2⟩
    · simp [RecoveryMeasurer.wait_for_recovery, h1] at h
      refine ⟨by omega, ?_, ?_⟩
      · intro k hk1 hk2; omega
      · rw [← h.2]
        exact Or.inl h1

/-- C6: when enabled, `RecoveryMeasurer.measure()` returns the total
elapsed wall-clock time in seconds, exactly (rounding whole milliseconds
to three decimals is the identity), with an anomaly reported precisely
when the over-threshold flag is set; the flag is set exactly when at least
one examined batch of event-queue draining took longer than the threshold;
every batch examined before the exit exceeded the threshold (the loop
exits as soon as a batch completes within the threshold), and the loop
ends either at a batch within the threshold or by the timeout break. -/
theorem recovery_measurer_measure (m : RecoveryMeasurer) (batch elapsedAt : ℕ → ℤ)
    (finalElapsed : ℤ) (fuel : ℕ) (over : Bool) (j : ℕ)
    (henabled : m.base.enabled = true)
    (hw : RecoveryMeasurer.wait_for_recovery batch elapsedAt m.threshold_ms m.timeout_ms
        fuel 0 false = some (over, j)) :
    (∃ a, Meter.measure (fun r => r.base)
        (RecoveryMeasurer.measureImpl batch elapsedAt finalElapsed fuel) m
        = some (some ((finalElapsed : ℚ) / 1000), m, a) ∧ (a ≠ [] ↔ over = true)) ∧
    (over = true ↔ ∃ i, i ≤ j ∧ m.threshold_ms < batch i) ∧
    (∀ k, k < j → m.threshold_ms < batch k) ∧
    (¬m.threshold_ms < batch j ∨ (0 < j ∧ m.timeout_ms < elapsedAt (j - 1))) := by
  have hflag := wait_for_recovery_flag batch elapsedAt m.threshold_ms m.timeout_ms
    fuel 0 false over j hw
  obtain ⟨-, hall, hexit⟩ := wait_for_recovery_exit batch elapsedAt m.threshold_ms
    m.timeout_ms fuel 0 false over j hw
  simp only [Bool.false_or] at hflag
  have hm : RecoveryMeasurer.measureImpl batch elapsedAt finalElapsed fuel m
      = some (m, [], pyRound3 ((finalElapsed : ℚ) / 1000), over) := by
    unfold RecoveryMeasurer.measureImpl
    rw [hw]
  refine ⟨?_, ?_, fun k hk => hall k (Nat.zero_le k) hk, ?_⟩
  · cases over with
    | true =>
      refine ⟨[⟨Meter.current_context m.base, (finalElapsed : ℚ) / 1000⟩], ?_, by simp⟩
      simp [Meter.measure, henabled, hm, pyRound3_int_div]
    | false =>
      refine ⟨[], ?_, by simp⟩
      simp [Meter.measure, henabled, hm, pyRound3_int_div]
  · constructor
    · intro hover
      rw [hover] at hflag
      exact ⟨0, Nat.zero_le j, of_decide_eq_true hflag.symm⟩
    · rintro ⟨i, hij, hi⟩
      by_contra hno
      have hovf : over = false := by
        cases over
        · rfl
        · exact absurd rfl hno
      rw [hovf] at hflag
      have hb0 : ¬m.threshold_ms < batch 0 := by
        intro hb
        rw [decide_eq_true hb] at hflag
        exact Bool.noConfusion hflag
      have hj0 : j = 0 := by
        by_contra hj
        exact hb0 (hall 0 (le_refl 0) (Nat.pos_of_ne_zero hj))
      rw [hj0] at hij
      have hi0 : i = 0 := Nat.le_zero.mp hij
      rw [hi0] at hi
      exact hb0 hi
  · exact hexit

/-- Recovery measurer for the witness: 10 processEvents per batch,
threshold 1 s, timeout 5 s. -/
def recoveryMeter0 : RecoveryMeasurer := RecoveryMeasurer.init 10 1 5 "Meters"

/-- Batch-time oracle for the witness: the first drain batch takes 2000 ms,
later ones 50 ms. -/
def recoveryBatch : ℕ → ℤ := fun i => if i = 0 then 2000 else 50

/-- Elapsed-timer oracle for the witness: 100 ms at every timeout check. -/
def recoveryElapsed : ℕ → ℤ := fun _ => 100

/-- Witness for the recovery measure theorem at concrete oracles: the loop
exits after the second batch (the first over threshold, the second
within), the anomaly flag is set, and measure returns 2.1 s. -/
theorem recovery_measurer_measure_witness :
    recoveryMeter0.base.enabled = true ∧
    RecoveryMeasurer.wait_for_recovery recoveryBatch recoveryElapsed
        recoveryMeter0.threshold_ms recoveryMeter0.timeout_ms 5 0 false
      = some (true, 1) ∧
    ((∃ a, Meter.measure (fun r => r.base)
        (RecoveryMeasurer.measureImpl recoveryBatch recoveryElapsed 2100 5)
        recoveryMeter0
        = some (some (((2100 : ℤ) : ℚ) / 1000), recoveryMeter0, a) ∧
      (a ≠ [] ↔ (true : Bool) = true)) ∧
    ((true : Bool) = true ↔ ∃ i, i ≤ 1 ∧ recoveryMeter0.threshold_ms < recoveryBatch i) ∧
    (∀ k, k < 1 → recoveryMeter0.threshold_ms < recoveryBatch k) ∧
    (¬recoveryMeter0.threshold_ms < recoveryBatch 1 ∨
      (0 < 1 ∧ recoveryMeter0.timeout_ms < recoveryElapsed 0))) :=
  ⟨rfl, by decide,
    recovery_measurer_measure recoveryMeter0 recoveryBatch recoveryElapsed 2100 5
      true 1 rfl (by decide)⟩

/-- Event identifiers of the ProfilerWrapper: `str(uuid.uuid4())` values,
modelled as a freshness counter (distinct counters model distinct uuid4
draws), plus the literal "invalid" default returned by `end` when the
group has no recorded events (a uuid4 string never equals "invalid"). -/
inductive EventId where
  | uuid (n : ℕ)
  | invalid
deriving DecidableEq, Repr

/-- Lookup in an association list (a Python dict keyed by group name). -/
def alistGet {β : Type} : List (String × β) → String → Option β
  | [], _ => none
  | (k, v) :: rest, key => if k = key then some v else alistGet rest key

/-- Update / insert in an association list. -/
def alistSet {β : Type} : List (String × β) → String → β → List (String × β)
  | [], key, v => [(key, v)]
  | (k, w) :: rest, key, v =>
    if k = key then (k, v) :: rest else (k, w) :: alistSet rest key v

/-- Reading the key just written. -/
theorem alistGet_set_same {β : Type} (m : List (String × β)) (k : String) (v : β) :
    alistGet (alistSet m k v) k = some v := by
  induction m with
  | nil => simp [alistGet, alistSet]
  | cons p rest ih =>
    obtain ⟨k0, w⟩ := p
    by_cases h : k0 = k
    · simp [alistGet, alistSet, h]
    · simp [alistGet, alistSet, h, ih]

/-- Reading another key is unaffected by a write. -/
theorem alistGet_set_other {β : Type} (m : List (String × β)) (k k' : String) (v : β)
    (h : k' ≠ k) : alistGet (alistSet m k v) k' = alistGet m k' := by
  induction m with
  | nil => simp [alistGet, alistSet, Ne.symm h]
  | cons p rest ih =>
    obtain ⟨k0, w⟩ := p
    by_cases h0 : k0 = k
    · subst h0
      simp [alistGet, alistSet, Ne.symm h]
    · simp [alistGet, alistSet, h0, ih]

/-- State of the ProfilerWrapper (profiler.py): the uuid freshness counter,
`_profiler_events` (a defaultdict mapping a group to the append-only list
of event ids recorded for it) and the per-group stacks of still-open
events of the underlying QgsRuntimeProfiler.  The QgsRuntimeProfiler is
external C++ code; it is modelled as a per-group stack of open (name, id)
entries where `start` pushes and `end` closes the most recently started
still-open entry. -/
structure ProfilerWrapperState where
  uuid_counter : ℕ
  profiler_events : List (String × List EventId)
  qgis_open : List (String × List (String × EventId))
deriving DecidableEq, Repr

/-- ProfilerWrapper with no recorded events. -/
def pwEmpty : ProfilerWrapperState := ⟨0, [], []⟩

/-- ProfilerWrapper.start (profiler.py): draw a fresh event id, start the
event in the underlying profiler for the given group, append the id to
`_profiler_events[group]` and return it. -/
def ProfilerWrapper.start (s : ProfilerWrapperState) (name group : String) :
    EventId × ProfilerWrapperState :=
  let event_id := EventId.uuid s.uuid_counter
  let events := (alistGet s.profiler_events group).getD []
  let opens := (alistGet s.qgis_open group).getD []
  (event_id,
    { uuid_counter := s.uuid_counter + 1
      profiler_events := alistSet s.profiler_events group (events ++ [event_id])
      qgis_open := alistSet s.qgis_open group ((name, event_id) :: opens) })

/-- ProfilerWrapper.end (profiler.py): end the current profiling event of
the group in the underlying profiler (closing its most recently started
still-open entry), then return
`self._profiler_events.get(group, ["invalid"])[-1]` - the last element of
the append-only id list (the list is never popped).  `none` models the
IndexError Python would raise on an empty stored list. -/
def ProfilerWrapper.endGroup (s : ProfilerWrapperState) (group : String) :
    Option EventId × ProfilerWrapperState :=
  let opens := (alistGet s.qgis_open group).getD []
  let returned : Option EventId :=
    match alistGet s.profiler_events group with
    | none => some EventId.invalid
    | some l => l.getLast?
  (returned, { s with qgis_open := alistSet s.qgis_open group opens.tail })

/-- Counterexample to C8 as stated: for nested events in one group,
successive `end(group)` calls do not return identifiers in LIFO order.
After start("a"), start("b") the first `end` returns id2 and the second
`end` returns id2 again (the per-group id list is append-only and never
popped), not id1 as LIFO would require. -/
theorem profiler_end_not_lifo_cex :
    (ProfilerWrapper.start pwEmpty "a" "g").1 = EventId.uuid 0 ∧
    (ProfilerWrapper.start (ProfilerWrapper.start pwEmpty "a" "g").2 "b" "g").1
      = EventId.uuid 1 ∧
    (ProfilerWrapper.endGroup
        (ProfilerWrapper.start (ProfilerWrapper.start pwEmpty "a" "g").2 "b" "g").2
        "g").1
      = some (EventId.uuid 1) ∧
    (ProfilerWrapper.endGroup
        (ProfilerWrapper.endGroup
          (ProfilerWrapper.start (ProfilerWrapper.start pwEmpty "a" "g").2 "b" "g").2
          "g").2
        "g").1
      = some (EventId.uuid 1) ∧
    some (EventId.uuid 1) ≠ some (EventId.uuid 0) := by
  refine ⟨rfl, rfl, rfl, rfl, ?_⟩
  decide

/-- C8 (amended): `start(name, group)` draws a fresh unique identifier,
records it for that group only and returns it; `end(group)` closes the
most recently started still-open event of the group in the underlying
profiler, but returns the identifier of the most recently started (last
recorded) event of the group, so successive `end(group)` calls for nested
events repeat the innermost identifier instead of walking the stack in
LIFO order; operations on one group leave every other group's recorded
events and open-event stack unchanged. -/
theorem profiler_start_end_semantics (s : ProfilerWrapperState)
    (s1 s2 s3 s4 : ProfilerWrapperState) (id1 id2 : EventId)
    (r1 r2 : Option EventId) (name1 name2 g g' : String)
    (hg : g' ≠ g)
    (hfresh : ∀ g0 l, alistGet s.profiler_events g0 = some l →
      ∀ n, EventId.uuid n ∈ l → n < s.uuid_counter)
    (hid1 : id1 = (ProfilerWrapper.start s name1 g).1)
    (hs1 : s1 = (ProfilerWrapper.start s name1 g).2)
    (hid2 : id2 = (ProfilerWrapper.start s1 name2 g).1)
    (hs2 : s2 = (ProfilerWrapper.start s1 name2 g).2)
    (hr1 : r1 = (ProfilerWrapper.endGroup s2 g).1)
    (hs3 : s3 = (ProfilerWrapper.endGroup s2 g).2)
    (hr2 : r2 = (ProfilerWrapper.endGroup s3 g).1)
    (hs4 : s4 = (ProfilerWrapper.endGroup s3 g).2) :
    id1 ≠ id2 ∧
    (∀ g0 l, alistGet s.profiler_events g0 = some l → id1 ∉ l) ∧
    alistGet s2.profiler_events g
      = some ((alistGet s.profiler_events g).getD [] ++ [id1, id2]) ∧
    r1 = some id2 ∧
    r2 = some id2 ∧
    (alistGet s2.qgis_open g).getD []
      = (name2, id2) :: (name1, id1) :: (alistGet s.qgis_open g).getD [] ∧
    (alistGet s3.qgis_open g).getD []
      = (name1, id1) :: (alistGet s.qgis_open g).getD [] ∧
    alistGet s4.profiler_events g' = alistGet s.profiler_events g' ∧
    alistGet s4.qgis_open g' = alistGet s.qgis_open g' := by
  subst hid1 hs1 hid2 hs2 hr1 hs3 hr2 hs4
  refine ⟨?_, ?_, ?_, ?_, ?_, ?_, ?_, ?_, ?_⟩
  · simp [ProfilerWrapper.start]
  · intro g0 l hl hmem
    have := hfresh g0 l hl s.uuid_counter
    simp only [ProfilerWrapper.start] at hmem
    exact absurd (this hmem) (lt_irrefl _)
  · simp [ProfilerWrapper.start, alistGet_set_same]
  · simp [ProfilerWrapper.start, ProfilerWrapper.endGroup, alistGet_set_same]
  · simp [ProfilerWrapper.start, ProfilerWrapper.endGroup, alistGet_set_same]
  · simp [ProfilerWrapper.start, alistGet_set_same]
  · simp [ProfilerWrapper.start, ProfilerWrapper.endGroup, alistGet_set_same]
  · simp [ProfilerWrapper.start, ProfilerWrapper.endGroup,
      alistGet_set_same, alistGet_set_other _ _ _ _ hg]
  · simp [ProfilerWrapper.start, ProfilerWrapper.endGroup,
      alistGet_set_same, alistGet_set_other _ _ _ _ hg]

/-- Intermediate states of the start/end witness trace. -/
def pwS1 : ProfilerWrapperState := (ProfilerWrapper.start pwEmpty "a" "g").2

/-- First id of the witness trace. -/
def pwId1 : EventId := (ProfilerWrapper.start pwEmpty "a" "g").1

/-- State after the second nested start of the witness trace. -/
def pwS2 : ProfilerWrapperState := (ProfilerWrapper.start pwS1 "b" "g").2

/-- Second id of the witness trace. -/
def pwId2 : EventId := (ProfilerWrapper.start pwS1 "b" "g").1

/-- First end result of the witness trace. -/
def pwR1 : Option EventId := (ProfilerWrapper.endGroup pwS2 "g").1

/-- State after the first end of the witness trace. -/
def pwS3 : ProfilerWrapperState := (ProfilerWrapper.endGroup pwS2 "g").2

/-- Second end result of the witness trace. -/
def pwR2 : Option EventId := (ProfilerWrapper.endGroup pwS3 "g").1

/-- State after the second end of the witness trace. -/
def pwS4 : ProfilerWrapperState := (ProfilerWrapper.endGroup pwS3 "g").2

/-- Witness for the start/end semantics theorem on a concrete trace from
the empty profiler. -/
theorem profiler_start_end_semantics_witness :
    ("other" ≠ "g") ∧
    (∀ g0 l, alistGet pwEmpty.profiler_events g0 = some l →
      ∀ n, EventId.uuid n ∈ l → n < pwEmpty.uuid_counter) ∧
    (pwId1 ≠ pwId2 ∧
      (∀ g0 l, alistGet pwEmpty.profiler_events g0 = some l → pwId1 ∉ l) ∧
      alistGet pwS2.profiler_events "g"
        = some ((alistGet pwEmpty.profiler_events "g").getD [] ++ [pwId1, pwId2]) ∧
      pwR1 = some pwId2 ∧
      pwR2 = some pwId2 ∧
      (alistGet pwS2.qgis_open "g").getD []
        = ("b", pwId2) :: ("a", pwId1) :: (alistGet pwEmpty.qgis_open "g").getD [] ∧
      (alistGet pwS3.qgis_open "g").getD []
        = ("a", pwId1) :: (alistGet pwEmpty.qgis_open "g").getD [] ∧
      alistGet pwS4.profiler_events "other" = alistGet pwEmpty.profiler_events "other" ∧
      alistGet pwS4.qgis_open "other" = alistGet pwEmpty.qgis_open "other") :=
  ⟨by decide,
    by intro g0 l h; simp [pwEmpty, alistGet] at h,
    profiler_start_end_semantics pwEmpty pwS1 pwS2 pwS3 pwS4 pwId1 pwId2 pwR1 pwR2
      "a" "b" "g" "other" (by decide)
      (by intro g0 l h; simp [pwEmpty, alistGet] at h)
      rfl rfl rfl rfl rfl rfl rfl rfl⟩

/-- Characters on which Python str.splitlines splits: LF, CR (with "\r\n"
counting as a single break), vertical tab, form feed, the separators
FS/GS/RS, NEL, and the Unicode line and paragraph separators. -/
def isLineBreak (c : Char) : Bool :=
  c = '\n' || c = '\r' || c = '\x0b' || c = '\x0c' || c = '\x1c' || c = '\x1d' ||
    c = '\x1e' || c = '\x85' || c = '\u2028' || c = '\u2029'

/-- Characters stripped by Python str.strip() and float(): everything
str.isspace() accepts - 0x09-0x0d, 0x1c-0x1f, the space, NEL, no-break
space, Ogham space mark, the 0x2000-0x200a spaces, line/paragraph
separators, narrow no-break space, medium mathematical space and the
ideographic space. -/
def pyIsSpace (c : Char) : Bool :=
  (decide ('\x09' ≤ c) && decide (c ≤ '\x0d')) || c = ' ' ||
    (decide ('\x1c' ≤ c) && decide (c ≤ '\x1f')) || c = '\x85' || c = '\xa0' ||
    c = '\u1680' || (decide ('\u2000' ≤ c) && decide (c ≤ '\u200a')) ||
    c = '\u2028' || c = '\u2029' || c = '\u202f' || c = '\u205f' || c = '\u3000'

/-- Python str.splitlines: strings are modelled as lists of characters;
splits on every line-break character, a "\r\n" pair counting as one
break, and a trailing break does not produce a final empty line. -/
def splitLinesCore : List Char → List Char → List (List Char)
  | [], acc => if acc.isEmpty then [] else [acc.reverse]
  | [c], acc =>
    if isLineBreak c then [acc.reverse] else [(c :: acc).reverse]
  | c1 :: c2 :: rest, acc =>
    if c1 = '\r' ∧ c2 = '\n' then acc.reverse :: splitLinesCore rest []
    else if isLineBreak c1 then acc.reverse :: splitLinesCore (c2 :: rest) []
    else splitLinesCore (c2 :: rest) (c1 :: acc)

/-- Python text.splitlines(). -/
def pySplitlines (cs : List Char) : List (List Char) := splitLinesCore cs []

/-- Python line.split(": "): split on every non-overlapping occurrence of
the two-character separator, scanning left to right. -/
def splitColonSpace : List Char → List Char → List (List Char)
  | [], acc => [acc.reverse]
  | [c], acc => [(c :: acc).reverse]
  | c1 :: c2 :: rest, acc =>
    if c1 = ':' ∧ c2 = ' ' then acc.reverse :: splitColonSpace rest []
    else splitColonSpace (c2 :: rest) (c1 :: acc)

/-- Split on a single-character separator (used for the '.' of a float
literal). -/
def splitOnChar (sep : Char) : List Char → List Char → List (List Char)
  | [], acc => [acc.reverse]
  | c :: rest, acc =>
    if c = sep then acc.reverse :: splitOnChar sep rest []
    else splitOnChar sep rest (c :: acc)

/-- Python str.strip(chars) / str.strip(): drop the matching characters
from both ends. -/
def dropWhileEnds (p : Char → Bool) (l : List Char) : List Char :=
  ((l.dropWhile p).reverse.dropWhile p).reverse

/-- Characters stripped by `.strip("- ")`. -/
def isDashSpace (c : Char) : Bool := c = '-' || c = ' '

/-- Name extraction of parse_lines: `parts[0].strip("- ").strip()`. -/
def stripName (l : List Char) : List Char :=
  dropWhileEnds pyIsSpace (dropWhileEnds isDashSpace l)

/-- Numeric value of a most-significant-first digit string. -/
def digitsVal (l : List Char) : ℕ :=
  l.foldl (fun n c => 10 * n + (c.toNat - '0'.toNat)) 0

/-- Python float() on an unsigned decimal literal: digits with at most one
dot, at least one digit overall. -/
def pyFloatUnsigned (cs : List Char) : Option ℚ :=
  match splitOnChar '.' cs [] with
  | [ip] =>
    if ip ≠ [] ∧ ip.all Char.isDigit then some ((digitsVal ip : ℚ)) else none
  | [ip, fp] =>
    if (ip ≠ [] ∨ fp ≠ []) ∧ ip.all Char.isDigit ∧ fp.all Char.isDigit then
      some ((digitsVal ip : ℚ) + (digitsVal fp : ℚ) / 10 ^ fp.length)
    else none
  | _ => none

/-- Python float(s) for the decimal literals the profiler emits (leading
and trailing whitespace ignored, optional sign, digits with at most one
dot; the exponent / infinity forms float() also accepts never occur in
profiler output).  `none` models the ValueError float() raises. -/
def pyFloat (cs0 : List Char) : Option ℚ :=
  let cs := dropWhileEnds pyIsSpace cs0
  if cs.head? = some '-' then (pyFloatUnsigned cs.tail).map Neg.neg
  else if cs.head? = some '+' then pyFloatUnsigned cs.tail
  else pyFloatUnsigned cs

/-- ProfilerResult (profiler.py): name, group, duration in seconds and
nested children. -/
inductive ProfilerResult where
  | mk (name : List Char) (group : List Char) (duration : ℚ)
      (children : List ProfilerResult)

/-- Outcome of parse_lines: the parsed results plus the lines left for the
enclosing level, or the ValueError/IndexError raised on a malformed line. -/
inductive ParseOut where
  | ok (results : List ProfilerResult) (rest : List (List Char))
  | error

/-- ProfilerResult.parse_from_text.parse_lines (profiler.py): while lines
remain, read the first line's level as its count of '-' characters; a line
at the current level is consumed, split at ": " into name and duration,
its children parsed recursively at level + 1 and the loop then continues
with the remaining lines; a line at a lower level ends the loop; a line at
a higher level matches neither branch and the loop spins on it forever -
the fuel parameter counts loop iterations and `none` means it ran out. -/
def parse_lines (group : List Char) : ℕ → List (List Char) → ℕ → Option ParseOut
  | 0, _, _ => none
  | _ + 1, [], _ => some (.ok [] [])
  | fuel + 1, line :: rest, level =>
    let line_level := line.count '-'
    if line_level = level then
      match splitColonSpace line [] with
      | p0 :: p1 :: _ =>
        match pyFloat p1 with
        | none => some .error
        | some duration =>
          match parse_lines group fuel rest (level + 1) with
          | none => none
          | some .error => some .error
          | some (.ok children rest1) =>
            match parse_lines group fuel rest1 level with
            | none => none
            | some .error => some .error
            | some (.ok siblings rest2) =>
              some (.ok (ProfilerResult.mk (stripName p0) group duration children
                :: siblings) rest2)
      | _ => some .error
    else if line_level < level then some (.ok [] (line :: rest))
    else parse_lines group fuel (line :: rest) level

/-- ProfilerResult.parse_from_text (profiler.py): split into lines, skip
the first line (the group name) and parse the rest at level 1. -/
def parse_from_text (fuel : ℕ) (text group : List Char) : Option ParseOut :=
  parse_lines group fuel ((pySplitlines text).drop 1) 1

/-- A line whose '-' count is strictly above the current level makes the
parse_lines loop spin without consuming anything: one more unit of fuel
is burnt and the state repeats. -/
theorem parse_lines_stuck (group line : List Char) (rest : List (List Char))
    (level : ℕ) (h : level < line.count '-') :
    ∀ fuel, parse_lines group fuel (line :: rest) level = none := by
  intro fuel
  induction fuel with
  | zero => rfl
  | succ fuel ih =>
    have h1 : ¬line.count '-' = level := by omega
    have h2 : ¬line.count '-' < level := by omega
    simp only [parse_lines, if_neg h1, if_neg h2]
    exact ih

/-- Text from the claim's divergent class: the group line followed by a
single line whose '-' count (2) exceeds the starting level (1). -/
def badParseText : List Char := ("group" ++ "\n" ++ "-- x: 1.0").toList

/-- C10: parse_from_text does not terminate on every input.  On a text
whose first parsed line has a '-' count greater than the nesting level
being parsed, the loop neither consumes a line nor returns, so no amount
of fuel makes it finish. -/
theorem parse_from_text_diverges :
    ∀ fuel, parse_from_text fuel badParseText ("g".toList) = none := by
  intro fuel
  have hlines : (pySplitlines badParseText).drop 1 = [("-- x: 1.0").toList] := by
    decide
  unfold parse_from_text
  rw [hlines]
  exact parse_lines_stuck ("g".toList) (("-- x: 1.0").toList) [] 1 (by decide) fuel

/-- Abstract profiler entry used to generate well-formed profiler text for
the parser: a name, a duration printed as whole part `w` and two decimal
digits `f` (QgsRuntimeProfiler prints durations as fixed-point decimals),
and nested children. -/
inductive RTree where
  | node (name : List Char) (w f : ℕ) (children : List RTree)

mutual

/-- Number of nodes of a tree. -/
def RTree.size : RTree → ℕ
  | .node _ _ _ children => 1 + RTree.sizeList children

/-- Number of nodes of a forest. -/
def RTree.sizeList : List RTree → ℕ
  | [] => 0
  | t :: ts => RTree.size t + RTree.sizeList ts

end

/-- Decimal digit string of a natural number (most significant first). -/
def natChars (w : ℕ) : List Char :=
  if w = 0 then ['0'] else ((Nat.digits 10 w).map Nat.digitChar).reverse

/-- Two-digit fractional part (printed with a leading zero). -/
def twoDigits (f : ℕ) : List Char :=
  [Nat.digitChar (f / 10 % 10), Nat.digitChar (f % 10)]

/-- Printed duration `w.ff`. -/
def durationChars (w f : ℕ) : List Char := natChars w ++ '.' :: twoDigits f

/-- A profiler text line at nesting depth `level`: the dashes, a space,
the name, ": " and the duration (as in the test sample
"- Task A: 1.25" / "-- Subtask A1: 0.50"). -/
def renderLine (level : ℕ) (name : List Char) (w f : ℕ) : List Char :=
  List.replicate level '-' ++ ' ' :: (name ++ ':' :: ' ' :: durationChars w f)

mutual

/-- Profiler text lines of a tree at a nesting depth. -/
def RTree.render : ℕ → RTree → List (List Char)
  | level, .node name w f children =>
    renderLine level name w f :: RTree.renderList (level + 1) children

/-- Profiler text lines of a forest at a nesting depth. -/
def RTree.renderList : ℕ → List RTree → List (List Char)
  | _, [] => []
  | level, t :: ts => RTree.render level t ++ RTree.renderList level ts

end

/-- Characters allowed in a rendered name: anything except the dash (which
would change the line's level count), the colon (which could create a
": " separator) and the line-break characters splitlines splits on. -/
def goodNameChar (c : Char) : Bool := !(c = '-' || c = ':' || isLineBreak c)

/-- A renderable name: non-empty, allowed characters only, and no Python
whitespace at either end (so that the strip calls leave it intact). -/
def goodName (name : List Char) : Bool :=
  !name.isEmpty && name.all goodNameChar &&
    !pyIsSpace (name.head?.getD 'x') && !pyIsSpace (name.getLast?.getD 'x')

mutual

/-- All names of a tree renderable and all fractional parts two-digit. -/
def RTree.good : RTree → Bool
  | .node name _ f children =>
    goodName name && decide (f < 100) && RTree.goodList children

/-- All names of a forest renderable. -/
def RTree.goodList : List RTree → Bool
  | [] => true
  | t :: ts => RTree.good t && RTree.goodList ts

end

mutual

/-- The ProfilerResult a tree denotes under a group. -/
def RTree.toResult (group : List Char) : RTree → ProfilerResult
  | .node name w f children =>
    ProfilerResult.mk name group ((w : ℚ) + (f : ℚ) / 100)
      (RTree.toResultList group children)

/-- The ProfilerResults a forest denotes under a group. -/
def RTree.toResultList (group : List Char) : List RTree → List ProfilerResult
  | [] => []
  | t :: ts => RTree.toResult group t :: RTree.toResultList group ts

end

/-- Join lines with newlines (inverse of splitlines for newline-free
non-empty lines). -/
def linesJoin : List (List Char) → List Char
  | [] => []
  | [l] => l
  | l :: ls => l ++ '\n' :: linesJoin ls

/-- Digit characters printed by Nat.digitChar are digits. -/
theorem digitChar_isDigit (d : ℕ) (h : d < 10) : (Nat.digitChar d).isDigit = true := by
  interval_cases d <;> decide

/-- Value of a printed digit character. -/
theorem digitChar_val (d : ℕ) (h : d < 10) :
    (Nat.digitChar d).toNat - '0'.toNat = d := by
  interval_cases d <;> decide

/-- A digit character is none of the separator characters. -/
theorem isDigit_ne (c : Char) (h : c.isDigit = true) :
    ¬c = '-' ∧ ¬c = ':' ∧ ¬c = '\n' ∧ ¬c = '.' ∧ ¬c = '+' := by
  refine ⟨?_, ?_, ?_, ?_, ?_⟩ <;> (rintro rfl; exact absurd h (by decide))

/-- dropWhile leaves a list alone when no element matches. -/
theorem dropWhile_of_forall_neg (p : Char → Bool) (l : List Char)
    (h : ∀ c ∈ l, p c = false) : l.dropWhile p = l := by
  cases l with
  | nil => rfl
  | cons c l => simp [List.dropWhile_cons, h c (List.mem_cons_self c l)]

/-- strip leaves a list alone when no element matches. -/
theorem dropWhileEnds_of_forall_neg (p : Char → Bool) (l : List Char)
    (h : ∀ c ∈ l, p c = false) : dropWhileEnds p l = l := by
  unfold dropWhileEnds
  rw [dropWhile_of_forall_neg p l h,
    dropWhile_of_forall_neg p l.reverse (fun c hc => h c (List.mem_reverse.mp hc)),
    List.reverse_reverse]

/-- dropWhile skips a fully-matching prefix. -/
theorem dropWhile_append_all (p : Char → Bool) (a l : List Char)
    (h : ∀ c ∈ a, p c = true) : (a ++ l).dropWhile p = l.dropWhile p := by
  induction a with
  | nil => rfl
  | cons c a ih =>
    rw [List.cons_append, List.dropWhile_cons, h c (List.mem_cons_self c a)]
    exact ih (fun x hx => h x (List.mem_cons_of_mem _ hx))

/-- strip leaves a list alone when neither end matches. -/
theorem dropWhileEnds_eq_self (p : Char → Bool) (l : List Char)
    (h1 : ∀ c, l.head? = some c → p c = false)
    (h2 : ∀ c, l.getLast? = some c → p c = false) :
    dropWhileEnds p l = l := by
  cases l with
  | nil => rfl
  | cons c l' =>
    unfold dropWhileEnds
    have hd : (c :: l').dropWhile p = c :: l' := by
      simp [List.dropWhile_cons, h1 c rfl]
    rw [hd]
    cases hr : (c :: l').reverse with
    | nil => simp at hr
    | cons d r' =>
      have hdlast : (c :: l').getLast? = some d := by
        rw [← List.head?_reverse, hr]
        rfl
      have hstep : (d :: r').dropWhile p = d :: r' := by
        simp [List.dropWhile_cons, h2 d hdlast]
      rw [hstep, ← hr, List.reverse_reverse]

/-- splitOnChar without the separator yields a single piece. -/
theorem splitOnChar_no (sep : Char) :
    ∀ (l acc : List Char), (∀ c ∈ l, ¬c = sep) →
      splitOnChar sep l acc = [acc.reverse ++ l] := by
  intro l
  induction l with
  | nil => intro acc h; simp [splitOnChar]
  | cons c l ih =>
    intro acc h
    simp only [splitOnChar]
    rw [if_neg (h c (List.mem_cons_self c l))]
    rw [ih (c :: acc) (fun x hx => h x (List.mem_cons_of_mem _ hx))]
    simp

/-- splitOnChar at the first occurrence of the separator. -/
theorem splitOnChar_hit (sep : Char) :
    ∀ (a b acc : List Char), (∀ c ∈ a, ¬c = sep) →
      splitOnChar sep (a ++ sep :: b) acc
        = (acc.reverse ++ a) :: splitOnChar sep b [] := by
  intro a
  induction a with
  | nil =>
    intro b acc h
    simp [splitOnChar]
  | cons c a ih =>
    intro b acc h
    simp only [List.cons_append, splitOnChar, List.append_eq]
    rw [if_neg (h c (List.mem_cons_self c a))]
    rw [ih b (c :: acc) (fun x hx => h x (List.mem_cons_of_mem _ hx))]
    simp

/-- split(": ") without a colon yields a single piece. -/
theorem splitColonSpace_no :
    ∀ (l acc : List Char), (∀ c ∈ l, ¬c = ':') →
      splitColonSpace l acc = [acc.reverse ++ l] := by
  intro l
  induction l with
  | nil => intro acc h; simp [splitColonSpace]
  | cons c l ih =>
    intro acc h
    cases l with
    | nil => simp [splitColonSpace]
    | cons c2 l2 =>
      have hc : ¬c = ':' := h c (List.mem_cons_self _ _)
      simp only [splitColonSpace]
      rw [if_neg (by rintro ⟨hh, -⟩; exact hc hh)]
      rw [ih (c :: acc) (fun x hx => h x (List.mem_cons_of_mem _ hx))]
      simp

/-- split(": ") at the first occurrence of the separator, the prefix being
colon-free. -/
theorem splitColonSpace_hit :
    ∀ (a b acc : List Char), (∀ c ∈ a, ¬c = ':') →
      splitColonSpace (a ++ ':' :: ' ' :: b) acc
        = (acc.reverse ++ a) :: splitColonSpace b [] := by
  intro a
  induction a with
  | nil =>
    intro b acc h
    simp [splitColonSpace]
  | cons c a ih =>
    intro b acc h
    have hc : ¬c = ':' := h c (List.mem_cons_self _ _)
    cases a with
    | nil =>
      simp only [List.nil_append, List.cons_append, splitColonSpace]
      rw [if_neg (by rintro ⟨hh, -⟩; exact hc hh)]
      simp [splitColonSpace]
    | cons c2 a2 =>
      simp only [List.cons_append, splitColonSpace, List.append_eq]
      rw [if_neg (by rintro ⟨hh, -⟩; exact hc hh)]
      rw [show (c2 :: (a2 ++ ':' :: ' ' :: b)) = ((c2 :: a2) ++ ':' :: ' ' :: b) from rfl]
      rw [ih b (c :: acc) (fun x hx => h x (List.mem_cons_of_mem _ hx))]
      simp

/-- splitlines on a line starting with a plain newline emits the
accumulated line. -/
theorem splitLinesCore_newline (b acc : List Char) :
    splitLinesCore ('
' :: b) acc = acc.reverse :: splitLinesCore b [] := by
  cases b with
  | nil => simp [splitLinesCore, isLineBreak]
  | cons c2 rest =>
    simp only [splitLinesCore]
    rw [if_neg (by rintro ⟨hh, -⟩; exact absurd hh (by decide))]
    rw [if_pos (by decide)]

/-- splitlines consumes a break-free prefix up to a plain newline. -/
theorem splitLinesCore_break :
    ∀ (a b acc : List Char), (∀ c ∈ a, isLineBreak c = false) →
      splitLinesCore (a ++ '
' :: b) acc
        = (acc.reverse ++ a) :: splitLinesCore b [] := by
  intro a
  induction a with
  | nil =>
    intro b acc h
    rw [List.nil_append, splitLinesCore_newline]
    simp
  | cons c a ih =>
    intro b acc h
    have hc : isLineBreak c = false := h c (List.mem_cons_self _ _)
    have hcr : ¬c = '\r' := by
      intro hh
      subst hh
      exact absurd hc (by decide)
    cases a with
    | nil =>
      simp only [List.nil_append, List.cons_append, splitLinesCore]
      rw [if_neg (by rintro ⟨hh, -⟩; exact hcr hh)]
      rw [if_neg (by simp [hc])]
      rw [splitLinesCore_newline]
      simp
    | cons c2 a2 =>
      simp only [List.cons_append, splitLinesCore, List.append_eq]
      rw [if_neg (by rintro ⟨hh, -⟩; exact hcr hh)]
      rw [if_neg (by simp [hc])]
      rw [show (c2 :: (a2 ++ '
' :: b)) = ((c2 :: a2) ++ '
' :: b) from rfl]
      rw [ih b (c :: acc) (fun x hx => h x (List.mem_cons_of_mem _ hx))]
      simp

/-- splitlines on a final break-free segment. -/
theorem splitLinesCore_last :
    ∀ (l acc : List Char), (∀ c ∈ l, isLineBreak c = false) →
      ¬(acc.reverse ++ l) = [] →
      splitLinesCore l acc = [acc.reverse ++ l] := by
  intro l
  induction l with
  | nil =>
    intro acc h hne
    simp only [splitLinesCore]
    have hacc : ¬acc.isEmpty = true := by
      intro he
      rw [List.isEmpty_iff] at he
      subst he
      simp at hne
    rw [if_neg hacc]
    simp
  | cons c l ih =>
    intro acc h hne
    have hc : isLineBreak c = false := h c (List.mem_cons_self _ _)
    have hcr : ¬c = '\r' := by
      intro hh
      subst hh
      exact absurd hc (by decide)
    cases l with
    | nil =>
      simp only [splitLinesCore]
      rw [if_neg (by simp [hc])]
      simp
    | cons c2 l2 =>
      simp only [splitLinesCore]
      rw [if_neg (by rintro ⟨hh, -⟩; exact hcr hh)]
      rw [if_neg (by simp [hc])]
      rw [ih (c :: acc) (fun x hx => h x (List.mem_cons_of_mem _ hx)) (by simp)]
      simp

/-- splitlines inverts linesJoin on break-free non-empty lines. -/
theorem pySplitlines_join :
    ∀ (ls : List (List Char)),
      (∀ l ∈ ls, (∀ c ∈ l, isLineBreak c = false) ∧ l ≠ []) →
      splitLinesCore (linesJoin ls) [] = ls := by
  intro ls
  induction ls with
  | nil => intro h; rfl
  | cons l ls ih =>
    intro h
    cases ls with
    | nil =>
      obtain ⟨h1, h2⟩ := h l (List.mem_cons_self _ _)
      rw [show linesJoin [l] = l from rfl]
      rw [splitLinesCore_last l [] h1 (by simpa using h2)]
      simp
    | cons l2 ls2 =>
      obtain ⟨h1, h2⟩ := h l (List.mem_cons_self _ _)
      rw [show linesJoin (l :: l2 :: ls2) = l ++ '
' :: linesJoin (l2 :: ls2) from rfl]
      rw [splitLinesCore_break l _ [] h1]
      rw [ih (fun x hx => h x (List.mem_cons_of_mem _ hx))]
      simp

/-- splitlines of a break-free group line, a newline and the joined body
lines. -/
theorem pySplitlines_text (groupLine : List Char) (ls : List (List Char))
    (hg : ∀ c ∈ groupLine, isLineBreak c = false)
    (h : ∀ l ∈ ls, (∀ c ∈ l, isLineBreak c = false) ∧ l ≠ []) :
    pySplitlines (groupLine ++ '
' :: linesJoin ls) = groupLine :: ls := by
  unfold pySplitlines
  rw [splitLinesCore_break groupLine _ [] hg]
  rw [pySplitlines_join ls h]
  simp

/-- Unpacking of the goodName predicate. -/
theorem goodName_spec (name : List Char) (h : goodName name = true) :
    name ≠ [] ∧ (∀ c ∈ name, ¬c = '-' ∧ ¬c = ':' ∧ isLineBreak c = false) ∧
      (∀ c, name.head? = some c → pyIsSpace c = false) ∧
      (∀ c, name.getLast? = some c → pyIsSpace c = false) := by
  simp only [goodName, Bool.and_eq_true] at h
  obtain ⟨⟨⟨hne, hall⟩, hhd⟩, hlast⟩ := h
  refine ⟨?_, ?_, ?_, ?_⟩
  · intro hnil
    subst hnil
    simp at hne
  · intro c hc
    have hg := List.all_eq_true.mp hall c hc
    have h3 : (¬c = '-' ∧ ¬c = ':') ∧ isLineBreak c = false := by
      simpa [goodNameChar] using hg
    exact ⟨h3.1.1, h3.1.2, h3.2⟩
  · intro c hc
    rw [hc] at hhd
    simpa using hhd
  · intro c hc
    rw [hc] at hlast
    simpa using hlast

/-- The printed digits of a natural number are non-empty. -/
theorem natChars_ne_nil (w : ℕ) : natChars w ≠ [] := by
  by_cases h : w = 0
  · simp [natChars, h]
  · simp [natChars, h, Nat.digits_ne_nil_iff_ne_zero]

/-- Every printed character of a natural number is a digit. -/
theorem natChars_all_digit (w : ℕ) : ∀ c ∈ natChars w, c.isDigit = true := by
  intro c hc
  unfold natChars at hc
  by_cases h : w = 0
  · rw [if_pos h] at hc
    simp only [List.mem_singleton] at hc
    subst hc
    decide
  · rw [if_neg h, List.mem_reverse] at hc
    obtain ⟨d, hd, rfl⟩ := List.mem_map.mp hc
    exact digitChar_isDigit d (Nat.digits_lt_base (by norm_num) hd)

/-- Both fractional characters are digits. -/
theorem twoDigits_all_digit (f : ℕ) : ∀ c ∈ twoDigits f, c.isDigit = true := by
  intro c hc
  simp only [twoDigits, List.mem_cons, List.mem_singleton, List.not_mem_nil,
    or_false] at hc
  rcases hc with rfl | rfl
  · exact digitChar_isDigit _ (Nat.mod_lt _ (by norm_num))
  · exact digitChar_isDigit _ (Nat.mod_lt _ (by norm_num))

/-- Every character of a printed duration is a digit or the dot. -/
theorem durationChars_all (w f : ℕ) :
    ∀ c ∈ durationChars w f, c.isDigit = true ∨ c = '.' := by
  intro c hc
  unfold durationChars at hc
  rcases List.mem_append.mp hc with h | h
  · exact Or.inl (natChars_all_digit w c h)
  · rcases List.mem_cons.mp h with h | h
    · exact Or.inr h
    · exact Or.inl (twoDigits_all_digit f c h)

/-- The '-' count of a rendered line is its nesting level. -/
theorem renderLine_count (level : ℕ) (name : List Char) (w f : ℕ)
    (hname : goodName name = true) :
    (renderLine level name w f).count '-' = level := by
  obtain ⟨-, hchars, -, -⟩ := goodName_spec name hname
  unfold renderLine
  rw [List.count_append]
  have h1 : (List.replicate level '-').count '-' = level := by simp
  have h2 : (' ' :: (name ++ ':' :: ' ' :: durationChars w f)).count '-' = 0 := by
    rw [List.count_eq_zero]
    intro hmem
    simp only [List.mem_cons, List.mem_append] at hmem
    rcases hmem with h | h
    · exact absurd h (by decide)
    rcases h with h | h
    · exact (hchars _ h).1 rfl
    rcases h with h | h
    · exact absurd h (by decide)
    rcases h with h | h
    · exact absurd h (by decide)
    · rcases durationChars_all w f _ h with hd | hd
      · exact absurd hd (by decide)
      · exact absurd hd (by decide)
  rw [h1, h2]
  omega

/-- Membership from getLast?. -/
theorem mem_of_getLast?_eq {l : List Char} {a : Char} (h : l.getLast? = some a) :
    a ∈ l := by
  have h2 : a ∈ l.reverse.head? := by
    rw [List.head?_reverse]
    simp [h]
  exact List.mem_reverse.mp (List.mem_of_mem_head? h2)

/-- Most-significant-first fold over printed digits computes the number. -/
theorem foldl_digitChars (ds : List ℕ) (h : ∀ d ∈ ds, d < 10) :
    ∀ a : ℕ, List.foldl (fun n c => 10 * n + (c.toNat - '0'.toNat)) a
        ((ds.map Nat.digitChar).reverse)
      = a * 10 ^ ds.length + Nat.ofDigits 10 ds := by
  induction ds with
  | nil => intro a; simp [Nat.ofDigits]
  | cons d ds ih =>
    intro a
    rw [List.map_cons, List.reverse_cons, List.foldl_append]
    rw [ih (fun x hx => h x (List.mem_cons_of_mem _ hx)) a]
    simp only [List.foldl_cons, List.foldl_nil]
    rw [digitChar_val d (h d (List.mem_cons_self _ _))]
    rw [Nat.ofDigits_cons]
    simp only [List.length_cons, pow_succ]
    ring

/-- digitsVal inverts natChars. -/
theorem digitsVal_natChars (w : ℕ) : digitsVal (natChars w) = w := by
  by_cases h : w = 0
  · subst h
    decide
  · unfold digitsVal natChars
    rw [if_neg h]
    rw [foldl_digitChars (Nat.digits 10 w)
      (fun d hd => Nat.digits_lt_base (by norm_num) hd) 0]
    simp [Nat.ofDigits_digits]

/-- digitsVal inverts twoDigits below 100. -/
theorem digitsVal_twoDigits (f : ℕ) (h : f < 100) : digitsVal (twoDigits f) = f := by
  unfold digitsVal twoDigits
  simp only [List.foldl_cons, List.foldl_nil]
  rw [digitChar_val _ (Nat.mod_lt _ (by norm_num)),
    digitChar_val _ (Nat.mod_lt _ (by norm_num))]
  omega

/-- A printed digit character is neither Python whitespace nor a
line-break character. -/
theorem digitChar_clean (d : ℕ) (h : d < 10) :
    pyIsSpace (Nat.digitChar d) = false ∧ isLineBreak (Nat.digitChar d) = false := by
  interval_cases d <;> exact ⟨by decide, by decide⟩

/-- Every character of natChars is a printed digit. -/
theorem natChars_mem_digitChar (w : ℕ) :
    ∀ c ∈ natChars w, ∃ d, d < 10 ∧ c = Nat.digitChar d := by
  intro c hc
  unfold natChars at hc
  by_cases h : w = 0
  · rw [if_pos h] at hc
    simp only [List.mem_singleton] at hc
    exact ⟨0, by norm_num, by rw [hc]; rfl⟩
  · rw [if_neg h, List.mem_reverse] at hc
    obtain ⟨d, hd, rfl⟩ := List.mem_map.mp hc
    exact ⟨d, Nat.digits_lt_base (by norm_num) hd, rfl⟩

/-- Every character of twoDigits is a printed digit. -/
theorem twoDigits_mem_digitChar (f : ℕ) :
    ∀ c ∈ twoDigits f, ∃ d, d < 10 ∧ c = Nat.digitChar d := by
  intro c hc
  simp only [twoDigits, List.mem_cons, List.mem_singleton, List.not_mem_nil,
    or_false] at hc
  rcases hc with rfl | rfl
  · exact ⟨f / 10 % 10, Nat.mod_lt _ (by norm_num), rfl⟩
  · exact ⟨f % 10, Nat.mod_lt _ (by norm_num), rfl⟩

/-- A printed duration contains no Python whitespace and no line-break
character. -/
theorem durationChars_clean (w f : ℕ) :
    ∀ c ∈ durationChars w f, pyIsSpace c = false ∧ isLineBreak c = false := by
  intro c hc
  unfold durationChars at hc
  rcases List.mem_append.mp hc with h | h
  · obtain ⟨d, hd, rfl⟩ := natChars_mem_digitChar w c h
    exact digitChar_clean d hd
  · rcases List.mem_cons.mp h with h | h
    · subst h
      exact ⟨by decide, by decide⟩
    · obtain ⟨d, hd, rfl⟩ := twoDigits_mem_digitChar f c h
      exact digitChar_clean d hd

/-- Stripping the dashes and the separating space from a rendered line's
name part recovers the name. -/
theorem stripName_renderLine (level : ℕ) (name : List Char)
    (hname : goodName name = true) :
    stripName (List.replicate level '-' ++ ' ' :: name) = name := by
  obtain ⟨hne, hchars, hhd, hlast⟩ := goodName_spec name hname
  have hheadDS : ∀ c, name.head? = some c → isDashSpace c = false := by
    intro c hc
    have hcmem : c ∈ name := List.mem_of_mem_head? (by simp [hc])
    have hws := hhd c hc
    have hndash := (hchars c hcmem).1
    have hnspace : ¬c = ' ' := by
      intro hh
      subst hh
      exact absurd hws (by decide)
    simp [isDashSpace, hndash, hnspace]
  have hlastDS : ∀ c, name.getLast? = some c → isDashSpace c = false := by
    intro c hc
    have hcmem : c ∈ name := mem_of_getLast?_eq hc
    have hws := hlast c hc
    have hndash := (hchars c hcmem).1
    have hnspace : ¬c = ' ' := by
      intro hh
      subst hh
      exact absurd hws (by decide)
    simp [isDashSpace, hndash, hnspace]
  have hall : ∀ c ∈ List.replicate level '-' ++ [' '], isDashSpace c = true := by
    intro c hc
    rcases List.mem_append.mp hc with h | h
    · rw [List.eq_of_mem_replicate h]
      decide
    · rw [List.mem_singleton.mp h]
      decide
  unfold stripName
  have h1 : dropWhileEnds isDashSpace (List.replicate level '-' ++ ' ' :: name)
      = dropWhileEnds isDashSpace name := by
    unfold dropWhileEnds
    rw [show List.replicate level '-' ++ ' ' :: name
        = (List.replicate level '-' ++ [' ']) ++ name from by simp,
      dropWhile_append_all _ _ _ hall]
  rw [h1, dropWhileEnds_eq_self isDashSpace name hheadDS hlastDS]
  exact dropWhileEnds_eq_self pyIsSpace name hhd hlast

/-- float() parses a rendered duration to the denoted rational. -/
theorem pyFloat_durationChars (w f : ℕ) (hf : f < 100) :
    pyFloat (durationChars w f) = some ((w : ℚ) + (f : ℚ) / 100) := by
  have hnotws : ∀ c ∈ durationChars w f, pyIsSpace c = false :=
    fun c hc => (durationChars_clean w f c hc).1
  have hstrip : dropWhileEnds pyIsSpace (durationChars w f) = durationChars w f :=
    dropWhileEnds_of_forall_neg _ _ hnotws
  obtain ⟨c0, rest0, hnc⟩ := List.exists_cons_of_ne_nil (natChars_ne_nil w)
  have hc0 : c0.isDigit = true := by
    apply natChars_all_digit w
    rw [hnc]
    exact List.mem_cons_self _ _
  have hhead : (durationChars w f).head? = some c0 := by
    unfold durationChars
    rw [hnc]
    rfl
  have hsplit : splitOnChar '.' (durationChars w f) [] = [natChars w, twoDigits f] := by
    unfold durationChars
    rw [splitOnChar_hit '.' (natChars w) (twoDigits f) []
      (fun c hc => (isDigit_ne c (natChars_all_digit w c hc)).2.2.2.1)]
    rw [splitOnChar_no '.' (twoDigits f) []
      (fun c hc => (isDigit_ne c (twoDigits_all_digit f c hc)).2.2.2.1)]
    simp
  have hunsigned : pyFloatUnsigned (durationChars w f)
      = some ((w : ℚ) + (f : ℚ) / 100) := by
    unfold pyFloatUnsigned
    rw [hsplit]
    dsimp only
    rw [if_pos ⟨Or.inl (natChars_ne_nil w),
      List.all_eq_true.mpr (natChars_all_digit w),
      List.all_eq_true.mpr (twoDigits_all_digit f)⟩]
    rw [digitsVal_natChars, digitsVal_twoDigits f hf]
    norm_num [twoDigits]
  unfold pyFloat
  simp only [hstrip, hhead]
  rw [if_neg (by
    intro hh
    have : c0 = '-' := by simpa using hh
    subst this
    exact absurd hc0 (by decide))]
  rw [if_neg (by
    intro hh
    have : c0 = '+' := by simpa using hh
    subst this
    exact absurd hc0 (by decide))]
  exact hunsigned

/-- Splitting a rendered line at ": " yields the name part and the
duration part. -/
theorem splitColonSpace_renderLine (level : ℕ) (name : List Char) (w f : ℕ)
    (hname : goodName name = true) :
    splitColonSpace (renderLine level name w f) []
      = [List.replicate level '-' ++ ' ' :: name, durationChars w f] := by
  obtain ⟨-, hchars, -, -⟩ := goodName_spec name hname
  have hnocolon : ∀ c ∈ List.replicate level '-' ++ ' ' :: name, ¬c = ':' := by
    intro c hc
    rcases List.mem_append.mp hc with h | h
    · rw [List.eq_of_mem_replicate h]
      decide
    · rcases List.mem_cons.mp h with h | h
      · subst h
        decide
      · exact (hchars c h).2.1
  have hnocolon2 : ∀ c ∈ durationChars w f, ¬c = ':' := by
    intro c hc
    rcases durationChars_all w f c hc with h | h
    · exact (isDigit_ne c h).2.1
    · subst h
      decide
  unfold renderLine
  rw [show List.replicate level '-' ++ ' ' :: (name ++ ':' :: ' ' :: durationChars w f)
      = (List.replicate level '-' ++ ' ' :: name) ++ ':' :: ' ' :: durationChars w f
      from by simp]
  rw [splitColonSpace_hit _ _ [] hnocolon]
  rw [splitColonSpace_no (durationChars w f) [] hnocolon2]
  simp

/-- A rendered line contains no line-break character and is non-empty. -/
theorem renderLine_wf (level : ℕ) (name : List Char) (w f : ℕ)
    (hname : goodName name = true) :
    (∀ c ∈ renderLine level name w f, isLineBreak c = false)
      ∧ renderLine level name w f ≠ [] := by
  obtain ⟨-, hchars, -, -⟩ := goodName_spec name hname
  constructor
  · intro c hmem
    unfold renderLine at hmem
    rcases List.mem_append.mp hmem with h | h
    · rw [List.eq_of_mem_replicate h]
      decide
    · rcases List.mem_cons.mp h with h | h
      · subst h
        decide
      rcases List.mem_append.mp h with h | h
      · exact (hchars _ h).2.2
      rcases List.mem_cons.mp h with h | h
      · subst h
        decide
      rcases List.mem_cons.mp h with h | h
      · subst h
        decide
      · exact (durationChars_clean w f _ h).2
  · simp [renderLine]

/-- All lines rendered from a good forest are break-free and non-empty. -/
theorem renderList_lines_wf :
    ∀ (n : ℕ) (forest : List RTree), RTree.sizeList forest ≤ n →
      RTree.goodList forest = true → ∀ (level : ℕ),
      ∀ l ∈ RTree.renderList level forest,
        (∀ c ∈ l, isLineBreak c = false) ∧ l ≠ [] := by
  intro n
  induction n with
  | zero =>
    intro forest hsize hgood level l hl
    cases forest with
    | nil => simp [RTree.renderList] at hl
    | cons t ts =>
      cases t with
      | node name w f children =>
        exfalso
        simp [RTree.sizeList, RTree.size] at hsize
  | succ n ih =>
    intro forest hsize hgood level l hl
    cases forest with
    | nil => simp [RTree.renderList] at hl
    | cons t ts =>
      cases t with
      | node name w f children =>
        rw [show RTree.renderList level (RTree.node name w f children :: ts)
            = (renderLine level name w f :: RTree.renderList (level + 1) children)
              ++ RTree.renderList level ts from rfl] at hl
        have hg : goodName name = true ∧ RTree.goodList children = true
            ∧ RTree.goodList ts = true := by
          simp only [RTree.goodList, RTree.good, Bool.and_eq_true] at hgood
          tauto
        have hsz : RTree.sizeList children ≤ n ∧ RTree.sizeList ts ≤ n := by
          simp only [RTree.sizeList, RTree.size] at hsize
          omega
        rcases List.mem_append.mp hl with h | h
        · rcases List.mem_cons.mp h with h | h
          · subst h
            exact renderLine_wf level name w f hg.1
          · exact ih children hsz.1 hg.2.1 (level + 1) l h
        · exact ih ts hsz.2 hg.2.2 level l h

/-- parse_lines on the lines of an enclosing level: nothing is consumed. -/
theorem parse_lines_lower (group : List Char) (level : ℕ) (lower : List (List Char))
    (hlow : lower = [] ∨ ∃ l0 ls, lower = l0 :: ls ∧ l0.count '-' < level) :
    ∀ fuel, 1 ≤ fuel → parse_lines group fuel lower level = some (.ok [] lower) := by
  intro fuel hfuel
  obtain ⟨fuel', rfl⟩ : ∃ fp, fuel = fp + 1 := ⟨fuel - 1, by omega⟩
  rcases hlow with rfl | ⟨l0, ls, rfl, hcount⟩
  · rfl
  · have h1 : ¬l0.count '-' = level := by omega
    simp only [parse_lines, if_neg h1, if_pos hcount]

/-- Round trip of the parser against the printer, by strong induction on
the number of nodes: parsing the rendered lines of a good forest at its
level, followed by lines of an enclosing level, consumes exactly the
rendered lines and produces the denoted results (given enough fuel). -/
theorem parse_render_aux :
    ∀ (n : ℕ) (forest : List RTree), RTree.sizeList forest ≤ n →
      RTree.goodList forest = true →
      ∀ (group : List Char) (level : ℕ) (lower : List (List Char)),
        (lower = [] ∨ ∃ l0 ls, lower = l0 :: ls ∧ l0.count '-' < level) →
        ∃ N, ∀ fuel, N ≤ fuel →
          parse_lines group fuel (RTree.renderList level forest ++ lower) level
            = some (.ok (RTree.toResultList group forest) lower) := by
  intro n
  induction n with
  | zero =>
    intro forest hsize hgood group level lower hlow
    cases forest with
    | nil =>
      refine ⟨1, fun fuel hf => ?_⟩
      rw [show RTree.renderList level [] = [] from rfl, List.nil_append]
      exact parse_lines_lower group level lower hlow fuel hf
    | cons t ts =>
      cases t with
      | node name w f children =>
        exfalso
        simp [RTree.sizeList, RTree.size] at hsize
  | succ n ih =>
    intro forest hsize hgood group level lower hlow
    cases forest with
    | nil =>
      refine ⟨1, fun fuel hf => ?_⟩
      rw [show RTree.renderList level [] = [] from rfl, List.nil_append]
      exact parse_lines_lower group level lower hlow fuel hf
    | cons t ts =>
      cases t with
      | node name w f children =>
        have hg : goodName name = true ∧ (f < 100) ∧ RTree.goodList children = true
            ∧ RTree.goodList ts = true := by
          simp only [RTree.goodList, RTree.good, Bool.and_eq_true,
            decide_eq_true_eq] at hgood
          tauto
        have hsz : RTree.sizeList children ≤ n ∧ RTree.sizeList ts ≤ n := by
          simp only [RTree.sizeList, RTree.size] at hsize
          omega
        have hlow' : RTree.renderList level ts ++ lower = [] ∨
            ∃ l0 ls, RTree.renderList level ts ++ lower = l0 :: ls
              ∧ l0.count '-' < level + 1 := by
          cases ts with
          | nil =>
            rcases hlow with rfl | ⟨l0, ls, rfl, hc⟩
            · exact Or.inl rfl
            · exact Or.inr ⟨l0, ls, rfl, by omega⟩
          | cons t2 ts2 =>
            cases t2 with
            | node name2 w2 f2 children2 =>
              have hgn2 : goodName name2 = true := by
                have := hg.2.2.2
                simp only [RTree.goodList, RTree.good, Bool.and_eq_true] at this
                tauto
              refine Or.inr ⟨renderLine level name2 w2 f2,
                RTree.renderList (level + 1) children2
                  ++ (RTree.renderList level ts2 ++ lower), ?_, ?_⟩
              · rw [show RTree.renderList level (RTree.node name2 w2 f2 children2 :: ts2)
                    = (renderLine level name2 w2 f2
                        :: RTree.renderList (level + 1) children2)
                      ++ RTree.renderList level ts2 from rfl]
                simp
              · rw [renderLine_count level name2 w2 f2 hgn2]
                omega
        obtain ⟨N1, hN1⟩ := ih children hsz.1 hg.2.2.1 group (level + 1)
          (RTree.renderList level ts ++ lower) hlow'
        obtain ⟨N2, hN2⟩ := ih ts hsz.2 hg.2.2.2 group level lower hlow
        refine ⟨N1 + N2 + 1, fun fuel hf => ?_⟩
        obtain ⟨fuel', rfl⟩ : ∃ fp, fuel = fp + 1 := ⟨fuel - 1, by omega⟩
        have hf1 : N1 ≤ fuel' := by omega
        have hf2 : N2 ≤ fuel' := by omega
        rw [show RTree.renderList level (RTree.node name w f children :: ts) ++ lower
            = renderLine level name w f
              :: (RTree.renderList (level + 1) children
                ++ (RTree.renderList level ts ++ lower))
            from by
              rw [show RTree.renderList level (RTree.node name w f children :: ts)
                  = (renderLine level name w f
                      :: RTree.renderList (level + 1) children)
                    ++ RTree.renderList level ts from rfl]
              simp]
        simp only [parse_lines]
        rw [if_pos (renderLine_count level name w f hg.1)]
        rw [splitColonSpace_renderLine level name w f hg.1]
        dsimp only
        rw [pyFloat_durationChars w f hg.2.1]
        dsimp only
        rw [hN1 fuel' hf1]
        dsimp only
        rw [hN2 fuel' hf2]
        dsimp only
        rw [stripName_renderLine level name hg.1]
        rfl

/-- C9: parse_from_text skips the first line (the group name) and parses
the remaining lines by indentation: for every newline-free group line and
every renderable forest, parsing the printed text reconstructs exactly the
forest's hierarchy, each node's name and duration taken from its line
split at ": ", every node carrying the supplied group. -/
theorem profiler_parse_from_text (groupLine group : List Char) (forest : List RTree)
    (hgl : ∀ c ∈ groupLine, isLineBreak c = false)
    (hgood : RTree.goodList forest = true) :
    ∃ N, ∀ fuel, N ≤ fuel →
      parse_from_text fuel
          (groupLine ++ '\n' :: linesJoin (RTree.renderList 1 forest)) group
        = some (.ok (RTree.toResultList group forest) []) := by
  have hwf : ∀ l ∈ RTree.renderList 1 forest,
      (∀ c ∈ l, isLineBreak c = false) ∧ l ≠ [] :=
    renderList_lines_wf (RTree.sizeList forest) forest (le_refl _) hgood 1
  have hsplit : pySplitlines (groupLine ++ '\n' :: linesJoin (RTree.renderList 1 forest))
      = groupLine :: RTree.renderList 1 forest :=
    pySplitlines_text groupLine _ hgl hwf
  obtain ⟨N, hN⟩ := parse_render_aux (RTree.sizeList forest) forest (le_refl _) hgood
    group 1 [] (Or.inl rfl)
  refine ⟨N, fun fuel hf => ?_⟩
  unfold parse_from_text
  rw [hsplit]
  rw [show (groupLine :: RTree.renderList 1 forest).drop 1
      = RTree.renderList 1 forest from rfl]
  have h2 := hN fuel hf
  rw [List.append_nil] at h2
  exact h2

/-- Concrete forest for the parse witness, shaped like the test sample
(a task with a nested subtask, then a sibling task). -/
def sampleForest : List RTree :=
  [RTree.node ("Task A").toList 1 25 [RTree.node ("Subtask A1").toList 0 50 []],
    RTree.node ("Task B").toList 2 0 []]

/-- Witness for the parse round-trip theorem on the concrete sample
forest and a concrete group line. -/
theorem profiler_parse_from_text_witness :
    (∀ c ∈ ("profiler_group").toList, isLineBreak c = false) ∧
    RTree.goodList sampleForest = true ∧
    (∃ N, ∀ fuel, N ≤ fuel →
      parse_from_text fuel
          (("profiler_group").toList
            ++ '\n' :: linesJoin (RTree.renderList 1 sampleForest))
          ("My group").toList
        = some (.ok (RTree.toResultList ("My group").toList sampleForest) [])) :=
  ⟨by decide, by decide,
    profiler_parse_from_text ("profiler_group").toList ("My group").toList
      sampleForest (by decide) (by decide)⟩
